import Mathlib

/-!
Verification of the Brightspace scraper (`brightspace_api.py`) against its
natural-language specification.  The Python code is shallowly embedded:
pure helpers become Lean functions on `List Char` / `String`, the
selector-driven extraction loops become functions over explicit page
models, and exception handling becomes explicit `Option` / flag passing.
-/

namespace Brightspace

/-! ## Character classes

Models of the Python character classes used by the code.  Python 3
compiles `re` patterns over `str` with Unicode semantics: `\s` matches
the characters CPython treats as whitespace (the ASCII controls and
space, U+001C-U+001F, U+0085, U+00A0, U+1680, U+2000-U+200A, U+2028,
U+2029, U+202F, U+205F, U+3000 - the same set `str.strip()` removes),
and `\d` matches every character of Unicode category Nd (decimal
digit), not only ASCII digits.  `[A-Z]` is ASCII-only even in Unicode
mode. -/

def isPySpace (c : Char) : Bool :=
  (9 ≤ c.toNat && c.toNat ≤ 13) || (28 ≤ c.toNat && c.toNat ≤ 32) ||
  c.toNat = 133 || c.toNat = 160 || c.toNat = 5760 ||
  (8192 ≤ c.toNat && c.toNat ≤ 8202) || c.toNat = 8232 || c.toNat = 8233 ||
  c.toNat = 8239 || c.toNat = 8287 || c.toNat = 12288

/-- The ASCII digits; the digit class of the JSON grammar. -/
def isDigit09 (c : Char) : Bool :=
  48 ≤ c.toNat && c.toNat ≤ 57

/-- Unicode category Nd (decimal digits), the class Python `\d` matches
on `str` patterns. -/
def isPyDigit (c : Char) : Bool :=
  (48 ≤ c.toNat && c.toNat ≤ 57) ||
  (1632 ≤ c.toNat && c.toNat ≤ 1641) ||
  (1776 ≤ c.toNat && c.toNat ≤ 1785) ||
  (1984 ≤ c.toNat && c.toNat ≤ 1993) ||
  (2406 ≤ c.toNat && c.toNat ≤ 2415) ||
  (2534 ≤ c.toNat && c.toNat ≤ 2543) ||
  (2662 ≤ c.toNat && c.toNat ≤ 2671) ||
  (2790 ≤ c.toNat && c.toNat ≤ 2799) ||
  (2918 ≤ c.toNat && c.toNat ≤ 2927) ||
  (3046 ≤ c.toNat && c.toNat ≤ 3055) ||
  (3174 ≤ c.toNat && c.toNat ≤ 3183) ||
  (3302 ≤ c.toNat && c.toNat ≤ 3311) ||
  (3430 ≤ c.toNat && c.toNat ≤ 3439) ||
  (3558 ≤ c.toNat && c.toNat ≤ 3567) ||
  (3664 ≤ c.toNat && c.toNat ≤ 3673) ||
  (3792 ≤ c.toNat && c.toNat ≤ 3801) ||
  (3872 ≤ c.toNat && c.toNat ≤ 3881) ||
  (4160 ≤ c.toNat && c.toNat ≤ 4169) ||
  (4240 ≤ c.toNat && c.toNat ≤ 4249) ||
  (6112 ≤ c.toNat && c.toNat ≤ 6121) ||
  (6160 ≤ c.toNat && c.toNat ≤ 6169) ||
  (6470 ≤ c.toNat && c.toNat ≤ 6479) ||
  (6608 ≤ c.toNat && c.toNat ≤ 6617) ||
  (6784 ≤ c.toNat && c.toNat ≤ 6793) ||
  (6800 ≤ c.toNat && c.toNat ≤ 6809) ||
  (6992 ≤ c.toNat && c.toNat ≤ 7001) ||
  (7088 ≤ c.toNat && c.toNat ≤ 7097) ||
  (7232 ≤ c.toNat && c.toNat ≤ 7241) ||
  (7248 ≤ c.toNat && c.toNat ≤ 7257) ||
  (42528 ≤ c.toNat && c.toNat ≤ 42537) ||
  (43216 ≤ c.toNat && c.toNat ≤ 43225) ||
  (43264 ≤ c.toNat && c.toNat ≤ 43273) ||
  (43472 ≤ c.toNat && c.toNat ≤ 43481) ||
  (43504 ≤ c.toNat && c.toNat ≤ 43513) ||
  (43600 ≤ c.toNat && c.toNat ≤ 43609) ||
  (44016 ≤ c.toNat && c.toNat ≤ 44025) ||
  (65296 ≤ c.toNat && c.toNat ≤ 65305) ||
  (66720 ≤ c.toNat && c.toNat ≤ 66729) ||
  (68912 ≤ c.toNat && c.toNat ≤ 68921) ||
  (69734 ≤ c.toNat && c.toNat ≤ 69743) ||
  (69872 ≤ c.toNat && c.toNat ≤ 69881) ||
  (69942 ≤ c.toNat && c.toNat ≤ 69951) ||
  (70096 ≤ c.toNat && c.toNat ≤ 70105) ||
  (70384 ≤ c.toNat && c.toNat ≤ 70393) ||
  (70736 ≤ c.toNat && c.toNat ≤ 70745) ||
  (70864 ≤ c.toNat && c.toNat ≤ 70873) ||
  (71248 ≤ c.toNat && c.toNat ≤ 71257) ||
  (71360 ≤ c.toNat && c.toNat ≤ 71369) ||
  (71472 ≤ c.toNat && c.toNat ≤ 71481) ||
  (71904 ≤ c.toNat && c.toNat ≤ 71913) ||
  (72016 ≤ c.toNat && c.toNat ≤ 72025) ||
  (72784 ≤ c.toNat && c.toNat ≤ 72793) ||
  (73040 ≤ c.toNat && c.toNat ≤ 73049) ||
  (73120 ≤ c.toNat && c.toNat ≤ 73129) ||
  (92768 ≤ c.toNat && c.toNat ≤ 92777) ||
  (92864 ≤ c.toNat && c.toNat ≤ 92873) ||
  (93008 ≤ c.toNat && c.toNat ≤ 93017) ||
  (120782 ≤ c.toNat && c.toNat ≤ 120831) ||
  (123200 ≤ c.toNat && c.toNat ≤ 123209) ||
  (123632 ≤ c.toNat && c.toNat ≤ 123641) ||
  (125264 ≤ c.toNat && c.toNat ≤ 125273) ||
  (130032 ≤ c.toNat && c.toNat ≤ 130041)

def isUpperAZ (c : Char) : Bool :=
  65 ≤ c.toNat && c.toNat ≤ 90

/-- Python `str.strip()`: remove leading and trailing whitespace. -/
def pyStrip (s : String) : String :=
  String.mk (((s.data.dropWhile isPySpace).reverse.dropWhile isPySpace).reverse)

/-! ## The regex `([A-Z]{2,4})\s+(\d{5})` of `_extract_course_code`

`re.search` semantics: scan positions left to right; at each position try
the pattern with backtracking.  `[A-Z]{2,4}` is greedy (tries 4, then 3,
then 2 repetitions), `\s+` is greedy with backtracking, `\d{5}` is exact.
The two capture groups are returned. -/

/-- `\d{5}` at the head of the input: five digits (further characters,
including further digits, are left unconsumed by this subpattern). -/
def matchDigits5 : List Char → Option (List Char)
  | d1 :: d2 :: d3 :: d4 :: d5 :: _ =>
    if isPyDigit d1 && isPyDigit d2 && isPyDigit d3 && isPyDigit d4 && isPyDigit d5 then
      some [d1, d2, d3, d4, d5]
    else none
  | _ => none

/-- `\s+(\d{5})` at the head of the input, greedy in the whitespace with
backtracking; returns the digit group. -/
def wsThenDigits : List Char → Option (List Char)
  | [] => none
  | c :: rest =>
    if isPySpace c then
      match wsThenDigits rest with
      | some ds => some ds
      | none => matchDigits5 rest
    else none

/-- `[A-Z]{k}\s+(\d{5})` anchored at the head: exactly `k` uppercase
letters, then whitespace, then the digits. -/
def tryUppers (cs : List Char) (k : Nat) : Option (List Char × List Char) :=
  if (cs.take k).length = k && (cs.take k).all isUpperAZ then
    match wsThenDigits (cs.drop k) with
    | some ds => some (cs.take k, ds)
    | none => none
  else none

/-- The whole pattern anchored at the head, with the greedy `{2,4}`
counter tried in descending order. -/
def matchAt (cs : List Char) : Option (List Char × List Char) :=
  match tryUppers cs 4 with
  | some r => some r
  | none =>
    match tryUppers cs 3 with
    | some r => some r
    | none => tryUppers cs 2

/-- `re.search`: leftmost position at which the pattern matches, returning
the two groups. -/
def searchPat : List Char → Option (List Char × List Char)
  | [] => none
  | c :: rest =>
    match matchAt (c :: rest) with
    | some r => some r
    | none => searchPat rest

/-- Python `sub in s` (substring containment test). -/
def containsSub (pat : List Char) : List Char → Bool
  | [] => pat.isPrefixOf []
  | c :: rest => pat.isPrefixOf (c :: rest) || containsSub pat rest

/-- The part of `cs` before the first occurrence of `sep`; the whole list
when `sep` does not occur.  Models Python `cs.split(sep)[0]`. -/
def takeBefore (sep : List Char) : List Char → List Char
  | [] => []
  | c :: rest =>
    if sep.isPrefixOf (c :: rest) then [] else c :: takeBefore sep rest

/-- The separator `" - "` used by the fallback of `_extract_course_code`. -/
def sepDash : List Char := [' ', '-', ' ']

/-- `BrightspaceScraper._extract_course_code`:
```
match = re.search(r'([A-Z]{2,4})\s+(\d{5})', course_name)
if match:
    return f"{match.group(1)} {match.group(2)}"
return course_name.split(' - ')[0] if ' - ' in course_name else course_name
``` -/
def extract_course_code (course_name : String) : String :=
  match searchPat course_name.data with
  | some (g1, g2) => String.mk g1 ++ " " ++ String.mk g2
  | none =>
    if containsSub sepDash course_name.data then
      String.mk (takeBefore sepDash course_name.data)
    else course_name

/-- The input class of claim C2/C3: the name contains a substring made of
two to four uppercase ASCII letters, then nonempty whitespace, then five
digits. -/
def hasCodePattern (cs : List Char) : Prop :=
  ∃ pre L w D rest, cs = pre ++ L ++ w ++ D ++ rest ∧
    2 ≤ L.length ∧ L.length ≤ 4 ∧ L.all isUpperAZ = true ∧
    w ≠ [] ∧ w.all isPySpace = true ∧
    D.length = 5 ∧ D.all isPyDigit = true

/-! ## `_extract_course_from_url`

```
parts = url.split('/')
for part in parts:
    if 'course' in part.lower():
        return part
return "Unknown Course"
``` -/

/-- Python `url.split('/')`: split on every slash, keeping empty parts. -/
def splitSlash : List Char → List (List Char)
  | [] => [[]]
  | c :: rest =>
    match splitSlash rest with
    | [] => [[c]]
    | p :: ps => if c = '/' then [] :: p :: ps else (c :: p) :: ps

/-- The lowercase letters of `'course'`. -/
def courseChars : List Char := [ 'c', 'o', 'u', 'r', 's', 'e' ]

/-- `'course' in part.lower()`. -/
def segMatchesCourse (part : List Char) : Bool :=
  containsSub courseChars (part.map Char.toLower)

def extract_course_from_url (url : String) : String :=
  match (splitSlash url.data).find? segMatchesCourse with
  | some part => String.mk part
  | none => "Unknown Course"

/-! ## Data model: `Course` and `Assignment` records

`Assignment.url` is `Option String` because the Python code stores
`title_element.get_attribute("href")`, which may be `None`; `Course.url`
is a plain `String` because the code coerces with `url or ""`. -/

structure Course where
  name : String
  code : String
  instructor : String
  url : String
deriving DecidableEq, Repr

structure Assignment where
  title : String
  due_date : String
  course : String
  status : String
  url : Option String
deriving DecidableEq, Repr

/-! ## DOM models

A candidate course element (a `.course-title` node) is modelled by what
the two Playwright calls made on it can return, plus a flag for an
exception raised by either call.  `textContent = none` models
`text_content()` returning `None`, on which `.strip()` raises. -/

structure CourseElem where
  raises : Bool
  textContent : Option String
  href : Option String
deriving DecidableEq, Repr

/-- A page state for `get_courses`: `navOk = false` models `goto` or the
top-level `wait_for_selector` raising. -/
structure CoursesPage where
  navOk : Bool
  elems : List CourseElem
deriving DecidableEq, Repr

/-- The body of the per-element `try` block of `get_courses`; `none`
models the caught per-element exception (skip-and-continue). -/
def processCourseElem (e : CourseElem) : Option Course :=
  if e.raises then none
  else
    match e.textContent with
    | none => none
    | some t =>
      some { name := pyStrip t
             code := extract_course_code (pyStrip t)
             instructor := ""
             url := e.href.getD "" }

/-- `BrightspaceScraper.get_courses`: on a top-level failure the outer
`except` returns `[]`; otherwise each element is processed independently
and failing elements are skipped. -/
def get_courses (p : CoursesPage) : List Course :=
  if p.navOk then p.elems.filterMap processCourseElem else []

/-- A nested sub-element (`query_selector` result) of an assignment row. -/
structure SubElem where
  textContent : Option String
  href : Option String
deriving DecidableEq, Repr

/-- An `.assignment-row` element: each `query_selector` may return
nothing (`none`), and `raises` models an exception from the DOM calls
themselves. -/
structure AssignElem where
  raises : Bool
  title : Option SubElem
  dueDate : Option SubElem
  status : Option SubElem
deriving DecidableEq, Repr

/-- A page state for `get_assignments`: `topRaises` models a failure of
`goto`, the assignments-link click, the load-state wait or the top-level
query. -/
structure AssignPage where
  topRaises : Bool
  elems : List AssignElem
deriving DecidableEq, Repr

/-- `x.text_content().strip() if x else sentinel`: the sentinel when the
sub-element is absent; `none` (a raised exception) when the sub-element
is present but its text is `None`. -/
def fieldText (sub : Option SubElem) (sentinel : String) : Option String :=
  match sub with
  | none => some sentinel
  | some el => el.textContent.map pyStrip

/-- The body of the per-element `try` block of `get_assignments`. -/
def processAssignElem (course_url : String) (e : AssignElem) : Option Assignment :=
  if e.raises then none
  else
    match fieldText e.title "Unknown", fieldText e.dueDate "No due date",
          fieldText e.status "Unknown" with
    | some t, some d, some s =>
      some { title := t
             due_date := d
             course := extract_course_from_url course_url
             status := s
             url := match e.title with
                    | some te => te.href
                    | none => some "" }
    | _, _, _ => none

/-- `BrightspaceScraper.get_assignments`. -/
def get_assignments (course_url : String) (p : AssignPage) : List Assignment :=
  if p.topRaises then [] else p.elems.filterMap (processAssignElem course_url)

/-! ## `login`

The observable events: `navRaises` models an exception anywhere in the
outer `try` before the Duo wait (navigation, form fill, click, form-wait
timeout); `duoAppears` tells whether `.duo-success` appears before the
60-second wait times out.  The result is `Except PyErr Bool`: an `error`
value would model an exception propagating to the caller. -/

inductive PyErr where
  | timeout
  | other
deriving DecidableEq, Repr

structure LoginEnv where
  navRaises : Bool
  duoAppears : Bool
deriving DecidableEq, Repr

def navAndSubmit (env : LoginEnv) : Except PyErr Unit :=
  if env.navRaises then .error .other else .ok ()

def waitDuoSuccess (env : LoginEnv) : Except PyErr Unit :=
  if env.duoAppears then .ok () else .error .timeout

/-- `BrightspaceScraper.login`: the inner `try` converts a Duo-wait
failure to `False`; the outer `except` converts any other exception to
`False`.  Every path yields `.ok`. -/
def login (env : LoginEnv) : Except PyErr Bool :=
  match navAndSubmit env with
  | .error _ => .ok false
  | .ok () =>
    match waitDuoSuccess env with
    | .ok () => .ok true
    | .error _ => .ok false

/-! ## Session lifecycle (`__enter__` / `__exit__`)

The context-manager protocol: `with` calls `__enter__`; if it raises, the
body and `__exit__` are both skipped; otherwise `__exit__` runs on every
exit of the body, normal or exceptional.  The state records which
side effects have happened. -/

structure EnterFail where
  startRaises : Bool
  launchRaises : Bool
  newPageRaises : Bool
deriving DecidableEq, Repr

structure SessState where
  pwStarted : Bool
  pwAttrSet : Bool
  browserLaunched : Bool
  browserSet : Bool
  pageOpened : Bool
  browserClosed : Bool
  pwStopped : Bool
  enterCount : Nat
deriving DecidableEq, Repr

def initState : SessState :=
  { pwStarted := false, pwAttrSet := false, browserLaunched := false,
    browserSet := false, pageOpened := false, browserClosed := false,
    pwStopped := false, enterCount := 0 }

/-- `__enter__`: `sync_playwright().start()`, then
`self.playwright.chromium.launch(...)`, then `self.browser.new_page()`;
the returned flag says whether the step raised.  `enterCount` counts the
invocations of `__enter__` on the instance. -/
def enterRun (b : EnterFail) (s : SessState) : SessState × Bool :=
  let s0 := { s with enterCount := s.enterCount + 1 }
  if b.startRaises then (s0, true)
  else
    let s1 := { s0 with pwStarted := true, pwAttrSet := true }
    if b.launchRaises then (s1, true)
    else
      let s2 := { s1 with browserLaunched := true, browserSet := true }
      if b.newPageRaises then (s2, true)
      else ({ s2 with pageOpened := true }, false)

/-- `__exit__`: `if self.browser: self.browser.close()` then
`if hasattr(self, 'playwright'): self.playwright.stop()`. -/
def exitRun (s : SessState) : SessState :=
  let s1 := if s.browserSet then { s with browserClosed := true } else s
  if s1.pwAttrSet then { s1 with pwStopped := true } else s1

/-- One scoped use (`with BrightspaceScraper(...) as scraper: body`):
when `__enter__` raises, Python does not call `__exit__`; when it
succeeds, `__exit__` runs whether or not the body raises. -/
def withScraper (b : EnterFail) (bodyRaises : Bool) : SessState :=
  match enterRun b initState with
  | (s1, true) => s1
  | (s1, false) =>
    let _ : Bool := bodyRaises
    exitRun s1

inductive Phase where
  | unopened
  | opened
  | closed
deriving DecidableEq, Repr

/-- The session phase named by the spec's state machine. -/
def phase (s : SessState) : Phase :=
  if s.pwStopped then .closed
  else if s.pageOpened then .opened
  else .unopened

/-! ## JSON persistence (`save_data`)

`save_data` writes `json.dump(data, f, indent=2)` to a file.  The JSON
serializer and the JSON reader are the Python standard library, external
to this repository, so they are modelled from the spec ("serializes a
mapping of collected records to a JSON file", "reading and parsing"):
JSON values are trees of null, booleans, integers, strings, arrays and
string-keyed objects; serialization is the indent-2 pretty format that
`json.dump` produces; parsing is a standard whitespace-tolerant JSON
reader. -/

inductive PyObj where
  | pynone
  | pybool (b : Bool)
  | pyint (n : Int)
  | pystr (s : String)
  | pylist (items : List PyObj)
  | pydict (entries : List (String × PyObj))

def digitC : Nat → Char
  | 0 => '0' | 1 => '1' | 2 => '2' | 3 => '3' | 4 => '4'
  | 5 => '5' | 6 => '6' | 7 => '7' | 8 => '8' | _ => '9'

def hexC : Nat → Char
  | 0 => '0' | 1 => '1' | 2 => '2' | 3 => '3' | 4 => '4'
  | 5 => '5' | 6 => '6' | 7 => '7' | 8 => '8' | 9 => '9'
  | 10 => 'a' | 11 => 'b' | 12 => 'c' | 13 => 'd' | 14 => 'e' | _ => 'f'

/-- Decimal digits of a natural number, most significant first. -/
def natChars (n : Nat) : List Char :=
  if _h : n < 10 then [digitC n]
  else natChars (n / 10) ++ [digitC (n % 10)]
decreasing_by exact Nat.div_lt_self (by omega) (by omega)

/-- Decimal representation of an integer. -/
def serNum (n : Int) : List Char :=
  if n < 0 then '-' :: natChars n.natAbs else natChars n.toNat

/-- JSON escaping of one character: quote, backslash and the control
shorthands get two-character escapes, other control characters get
`\u00XX`, everything else is emitted literally. -/
def escChar (c : Char) : List Char :=
  if c = '\x22' then ['\x5c', '\x22']
  else if c = '\x5c' then ['\x5c', '\x5c']
  else if c = '\n' then ['\x5c', 'n']
  else if c = '\x0d' then ['\x5c', 'r']
  else if c = '\t' then ['\x5c', 't']
  else if c = '\x08' then ['\x5c', 'b']
  else if c = '\x0c' then ['\x5c', 'f']
  else if c.toNat < 32 then
    ['\x5c', 'u', '0', '0', hexC (c.toNat / 16), hexC (c.toNat % 16)]
  else [c]

def escList : List Char → List Char
  | [] => []
  | c :: rest => escChar c ++ escList rest

/-- A JSON string literal: quote, escaped characters, quote. -/
def serStr (s : String) : List Char :=
  '\x22' :: (escList s.data ++ ['\x22'])

/-- `indent`-many spaces. -/
def padC (n : Nat) : List Char := List.replicate n ' '

mutual

/-- `json.dump(·, indent=2)` at the given indentation level. -/
def serVal (ind : Nat) : PyObj → List Char
  | .pynone => [ 'n', 'u', 'l', 'l' ]
  | .pybool true => [ 't', 'r', 'u', 'e' ]
  | .pybool false => [ 'f', 'a', 'l', 's', 'e' ]
  | .pyint n => serNum n
  | .pystr s => serStr s
  | .pylist [] => [ '[', ']' ]
  | .pylist (x :: xs) =>
    '[' :: '\n' :: (serItems (ind + 2) x xs ++ '\n' :: (padC ind ++ [ ']' ]))
  | .pydict [] => [ '\x7b', '\x7d' ]
  | .pydict ((k, v) :: kvs) =>
    '\x7b' :: '\n' :: (serFields (ind + 2) k v kvs ++ '\n' :: (padC ind ++ [ '\x7d' ]))
termination_by v => sizeOf v

/-- Comma-and-newline separated array items, each on its own indented
line. -/
def serItems (ind : Nat) (x : PyObj) : List PyObj → List Char
  | [] => padC ind ++ serVal ind x
  | y :: ys => padC ind ++ (serVal ind x ++ ',' :: '\n' :: serItems ind y ys)
termination_by ys => sizeOf x + sizeOf ys

/-- Comma-and-newline separated object entries `"key": value`. -/
def serFields (ind : Nat) (k : String) (v : PyObj) : List (String × PyObj) → List Char
  | [] => padC ind ++ (serStr k ++ ':' :: ' ' :: serVal ind v)
  | (k2, v2) :: kvs =>
    padC ind ++ (serStr k ++ ':' :: ' ' :: (serVal ind v ++ ',' :: '\n' :: serFields ind k2 v2 kvs))
termination_by kvs => sizeOf v + sizeOf kvs

end

mutual

/-- Number of nodes of a JSON value; a fuel bound for the parser. -/
def jsize : PyObj → Nat
  | .pynone => 1
  | .pybool _ => 1
  | .pyint _ => 1
  | .pystr _ => 1
  | .pylist items => 1 + jsizeL items
  | .pydict entries => 1 + jsizeF entries
termination_by v => sizeOf v

def jsizeL : List PyObj → Nat
  | [] => 1
  | x :: xs => 1 + jsize x + jsizeL xs
termination_by xs => sizeOf xs

def jsizeF : List (String × PyObj) → Nat
  | [] => 1
  | (_, val) :: kvs => 1 + jsize val + jsizeF kvs
termination_by kvs => sizeOf kvs

end

def isJsonWs (c : Char) : Bool :=
  c.toNat = 32 || c.toNat = 9 || c.toNat = 10 || c.toNat = 13

def skipWs (cs : List Char) : List Char := cs.dropWhile isJsonWs

def hexVal (c : Char) : Nat :=
  if c.toNat ≤ 57 then c.toNat - 48
  else if c.toNat ≤ 70 then c.toNat - 55
  else c.toNat - 87

/-- Single-character string escapes accepted by the reader. -/
def unescChar (c : Char) : Option Char :=
  if c = '\x22' then some '\x22'
  else if c = '\x5c' then some '\x5c'
  else if c = '/' then some '/'
  else if c = 'n' then some '\n'
  else if c = 'r' then some '\x0d'
  else if c = 't' then some '\t'
  else if c = 'b' then some '\x08'
  else if c = 'f' then some '\x0c'
  else none

/-- The body of a JSON string literal, after the opening quote: the
decoded characters and the input after the closing quote. -/
def parseStrBody : List Char → Option (List Char × List Char)
  | [] => none
  | c :: rest =>
    if c = '\x22' then some ([], rest)
    else if c = '\x5c' then
      match rest with
      | [] => none
      | e :: rest2 =>
        if e = 'u' then
          match rest2 with
          | h1 :: h2 :: h3 :: h4 :: rest3 =>
            (match parseStrBody rest3 with
             | some (l, r) =>
               some (Char.ofNat
                 (hexVal h1 * 4096 + hexVal h2 * 256 + hexVal h3 * 16 + hexVal h4) :: l, r)
             | none => none)
          | _ => none
        else
          match unescChar e with
          | some u =>
            (match parseStrBody rest2 with
             | some (l, r) => some (u :: l, r)
             | none => none)
          | none => none
    else
      match parseStrBody rest with
      | some (l, r) => some (c :: l, r)
      | none => none

def digitsVal (ds : List Char) : Nat :=
  ds.foldl (fun a c => 10 * a + (c.toNat - 48)) 0

/-- A maximal run of digits at the head of the input, as a number. -/
def parseNatPart (cs : List Char) : Option (Nat × List Char) :=
  if (cs.takeWhile isDigit09).isEmpty then none
  else some (digitsVal (cs.takeWhile isDigit09), cs.dropWhile isDigit09)

/-- Does the input start with a digit?  (A number literal must not be
followed by one.) -/
def headIsDigit : List Char → Bool
  | [] => false
  | c :: _ => isDigit09 c

def litNull : List Char := [ 'n', 'u', 'l', 'l' ]

def litTrue : List Char := [ 't', 'r', 'u', 'e' ]

def litFalse : List Char := [ 'f', 'a', 'l', 's', 'e' ]

mutual

/-- A JSON value, preceded by optional whitespace.  The fuel bounds the
recursion depth; `jsize` of the value always suffices. -/
def parseVal : Nat → List Char → Option (PyObj × List Char)
  | 0, _ => none
  | f + 1, cs => parseValCore f (skipWs cs)

/-- One JSON value, dispatched on its first character (no leading
whitespace). -/
def parseValCore : Nat → List Char → Option (PyObj × List Char)
  | _, [] => none
  | f, c :: tl =>
    if c = '\x7b' then
      match skipWs tl with
      | [] => none
      | d :: keep =>
        if d = '\x7d' then some (.pydict [], keep)
        else
          match parseFields f tl with
          | some (kvs, fin) => some (.pydict kvs, fin)
          | none => none
    else if c = '[' then
      match skipWs tl with
      | [] => none
      | d :: keep =>
        if d = ']' then some (.pylist [], keep)
        else
          match parseItems f tl with
          | some (vs, fin) => some (.pylist vs, fin)
          | none => none
    else if c = '\x22' then
      match parseStrBody tl with
      | some (body, fin) => some (.pystr (String.mk body), fin)
      | none => none
    else if c = '-' then
      match parseNatPart tl with
      | some (n, fin) => some (.pyint (-(n : Int)), fin)
      | none => none
    else if isDigit09 c then
      match parseNatPart (c :: tl) with
      | some (n, fin) => some (.pyint (n : Int), fin)
      | none => none
    else if litNull.isPrefixOf (c :: tl) then some (.pynone, (c :: tl).drop 4)
    else if litTrue.isPrefixOf (c :: tl) then some (.pybool true, (c :: tl).drop 4)
    else if litFalse.isPrefixOf (c :: tl) then some (.pybool false, (c :: tl).drop 5)
    else none

/-- The items of a nonempty array, up to and including the closing
bracket. -/
def parseItems : Nat → List Char → Option (List PyObj × List Char)
  | 0, _ => none
  | g + 1, cs =>
    match parseVal g cs with
    | none => none
    | some (v, more) =>
      match skipWs more with
      | [] => none
      | c :: after =>
        if c = ',' then
          match parseItems g after with
          | some (vs, fin) => some (v :: vs, fin)
          | none => none
        else if c = ']' then some ([v], after)
        else none

/-- The entries of a nonempty object, up to and including the closing
brace. -/
def parseFields : Nat → List Char → Option (List (String × PyObj) × List Char)
  | 0, _ => none
  | g + 1, cs =>
    match skipWs cs with
    | [] => none
    | c :: more =>
      if c = '\x22' then
        match parseStrBody more with
        | none => none
        | some (key, more2) =>
          match skipWs more2 with
          | [] => none
          | d :: more3 =>
            if d = ':' then
              match parseVal g more3 with
              | none => none
              | some (v, more4) =>
                match skipWs more4 with
                | [] => none
                | e :: more5 =>
                  if e = ',' then
                    match parseFields g more5 with
                    | some (kvs, fin) => some ((String.mk key, v) :: kvs, fin)
                    | none => none
                  else if e = '\x7d' then some ([(String.mk key, v)], more5)
                  else none
            else none
      else none

end

/-- Reading a JSON document: parse one value and require only whitespace
after it. -/
def parseJson (s : String) : Option PyObj :=
  match parseVal (s.length + 1) s.data with
  | some (v, rest) => if (skipWs rest).isEmpty then some v else none
  | none => none

/-- Modelled from the spec: `save_data` serializes the mapping with
`json.dump(data, f, indent=2)` and writes it to the file; the Python
`json` module is external to the repository, so the value returned here
is the file content the spec describes ("serializes a mapping of
collected records to a JSON file"). -/
def save_data (data : PyObj) : String := String.mk (serVal 0 data)

/-! ## Concrete instances used by the witness theorems -/

def exElemA : CourseElem :=
  { raises := false, textContent := some "CS 18000 - Problem Solving", href := some "/d2l/home/111" }

def exElemB : CourseElem :=
  { raises := true, textContent := some "MA 16500", href := none }

def exElemC : CourseElem :=
  { raises := false, textContent := some "Data Structures - Section A", href := none }

def exPage : CoursesPage := { navOk := true, elems := [exElemA, exElemB, exElemC] }

def exAssignElem : AssignElem :=
  { raises := false
    title := some { textContent := some "Homework 1", href := none }
    dueDate := none
    status := none }

def exAssignPage : AssignPage := { topRaises := false, elems := [exAssignElem] }

def exAssignRec : Assignment :=
  { title := "Homework 1", due_date := "No due date", course := "Unknown Course",
    status := "Unknown", url := none }

def exCourseElem : CourseElem :=
  { raises := false, textContent := some "Biology", href := none }

def exCourseRec : Course :=
  { name := "Biology", code := "Biology", instructor := "", url := "" }

end Brightspace

/-! # Theorems -/

namespace Brightspace

/-! ## General list lemmas -/

theorem filterMap_map_some_of_isSome {α β : Type} (f : α → Option β) :
    ∀ l : List α, (∀ x ∈ l, (f x).isSome = true) →
      (l.filterMap f).map some = l.map f := by
  intro l
  induction l with
  | nil => intro _; rfl
  | cons x xs ih =>
    intro h
    have hx := h x (by simp)
    obtain ⟨b, hb⟩ := Option.isSome_iff_exists.mp hx
    simp [List.filterMap_cons, hb, ih fun y hy => h y (by simp [hy])]

theorem list_split_at {α : Type} (l : List α) (k : Nat) (hk : k < l.length) :
    l = l.take k ++ l.get ⟨k, hk⟩ :: l.drop (k + 1) := by
  conv_lhs => rw [← List.take_append_drop k l]
  rw [List.drop_eq_getElem_cons hk]
  rfl

theorem find?_at_first_index {α : Type} (q : α → Bool) :
    ∀ (l : List α) (j : Nat) (hj : j < l.length),
      q (l.get ⟨j, hj⟩) = true →
      (∀ i (hi : i < j), q (l.get ⟨i, Nat.lt_trans hi hj⟩) = false) →
      l.find? q = some (l.get ⟨j, hj⟩) := by
  intro l
  induction l with
  | nil => intro j hj; simp at hj
  | cons x xs ih =>
    intro j hj hq hprev
    cases j with
    | zero => simp_all [List.find?]
    | succ j' =>
      have hx : q x = false := hprev 0 (Nat.succ_pos j')
      simp only [List.find?, hx]
      exact ih j' (Nat.lt_of_succ_lt_succ hj) hq
        fun i hi => hprev (i + 1) (Nat.succ_lt_succ hi)

/-! ## The course-code regex: soundness of `searchPat` -/

theorem space_not_upper {c : Char} (h : isPySpace c = true) : isUpperAZ c = false := by
  simp only [isPySpace, Bool.or_eq_true, Bool.and_eq_true, decide_eq_true_eq] at h
  simp only [isUpperAZ, Bool.and_eq_false_iff, decide_eq_false_iff_not]
  omega

theorem pydigit_not_space {c : Char} (h : isPyDigit c = true) : isPySpace c = false := by
  simp only [isPyDigit, Bool.or_eq_true, Bool.and_eq_true, decide_eq_true_eq] at h
  simp only [isPySpace, Bool.or_eq_false_iff, Bool.and_eq_false_iff,
    decide_eq_false_iff_not]
  omega

theorem matchDigits5_sound {cs D : List Char} (h : matchDigits5 cs = some D) :
    D.length = 5 ∧ D.all isPyDigit = true ∧ ∃ rest, cs = D ++ rest := by
  unfold matchDigits5 at h
  split at h
  · rename_i d1 d2 d3 d4 d5 tail
    split at h
    · rename_i hd
      cases h
      simp only [Bool.and_eq_true] at hd
      refine ⟨rfl, ?_, tail, rfl⟩
      simp [List.all_cons, hd.1.1.1.1, hd.1.1.1.2, hd.1.1.2, hd.1.2, hd.2]
    · exact absurd h (by simp)
  · exact absurd h (by simp)

theorem wsThenDigits_sound :
    ∀ {cs D : List Char}, wsThenDigits cs = some D →
      ∃ w rest, cs = w ++ D ++ rest ∧ w ≠ [] ∧ w.all isPySpace = true ∧
        D.length = 5 ∧ D.all isPyDigit = true := by
  intro cs
  induction cs with
  | nil => intro D h; exact absurd h (by simp [wsThenDigits])
  | cons c rest ih =>
    intro D h
    unfold wsThenDigits at h
    split at h
    · rename_i hsp
      split at h
      · rename_i ds hds
        cases h
        obtain ⟨w, r, hrest, hwne, hwsp, hD5, hDd⟩ := ih hds
        exact ⟨c :: w, r, by simp [hrest], by simp,
          by simp [List.all_cons, hsp, hwsp], hD5, hDd⟩
      · rename_i hds
        obtain ⟨hD5, hDd, r, hr⟩ := matchDigits5_sound h
        exact ⟨[c], r, by simp [hr], by simp, by simp [List.all_cons, hsp], hD5, hDd⟩
    · exact absurd h (by simp)

theorem tryUppers_sound {cs : List Char} {k : Nat} {L D : List Char}
    (h : tryUppers cs k = some (L, D)) :
    L.length = k ∧ L.all isUpperAZ = true ∧
      ∃ w rest, cs = L ++ w ++ D ++ rest ∧ w ≠ [] ∧ w.all isPySpace = true ∧
        D.length = 5 ∧ D.all isPyDigit = true := by
  unfold tryUppers at h
  split at h
  · rename_i hcond
    simp only [Bool.and_eq_true, decide_eq_true_eq] at hcond
    split at h
    · rename_i ds hds
      cases h
      refine ⟨hcond.1, hcond.2, ?_⟩
      obtain ⟨w, r, hdrop, hwne, hwsp, hD5, hDd⟩ := wsThenDigits_sound hds
      have hsplit : cs = cs.take k ++ cs.drop k := (List.take_append_drop k cs).symm
      rw [hdrop] at hsplit
      exact ⟨w, r, by simpa [List.append_assoc] using hsplit, hwne, hwsp, hD5, hDd⟩
    · exact absurd h (by simp)
  · exact absurd h (by simp)

theorem matchAt_sound {cs L D : List Char} (h : matchAt cs = some (L, D)) :
    2 ≤ L.length ∧ L.length ≤ 4 ∧ L.all isUpperAZ = true ∧
      ∃ w rest, cs = L ++ w ++ D ++ rest ∧ w ≠ [] ∧ w.all isPySpace = true ∧
        D.length = 5 ∧ D.all isPyDigit = true := by
  unfold matchAt at h
  split at h
  · rename_i r h4
    cases h
    obtain ⟨hl, hup, hrest⟩ := tryUppers_sound h4
    exact ⟨by omega, by omega, hup, hrest⟩
  · split at h
    · rename_i r h3
      cases h
      obtain ⟨hl, hup, hrest⟩ := tryUppers_sound h3
      exact ⟨by omega, by omega, hup, hrest⟩
    · obtain ⟨hl, hup, hrest⟩ := tryUppers_sound h
      exact ⟨by omega, by omega, hup, hrest⟩

theorem searchPat_sound :
    ∀ {cs L D : List Char}, searchPat cs = some (L, D) →
      ∃ pre w rest, cs = pre ++ L ++ w ++ D ++ rest ∧
        2 ≤ L.length ∧ L.length ≤ 4 ∧ L.all isUpperAZ = true ∧
        w ≠ [] ∧ w.all isPySpace = true ∧ D.length = 5 ∧ D.all isPyDigit = true := by
  intro cs
  induction cs with
  | nil => intro L D h; exact absurd h (by simp [searchPat])
  | cons c rest ih =>
    intro L D h
    unfold searchPat at h
    split at h
    · rename_i r hm
      cases h
      obtain ⟨h2, h4, hup, w, r', heq, hwne, hwsp, hD5, hDd⟩ := matchAt_sound hm
      exact ⟨[], w, r', by simpa using heq, h2, h4, hup, hwne, hwsp, hD5, hDd⟩
    · obtain ⟨pre, w, r', heq, h2, h4, hup, hwne, hwsp, hD5, hDd⟩ := ih h
      exact ⟨c :: pre, w, r', by simp [heq], h2, h4, hup, hwne, hwsp, hD5, hDd⟩

/-! ## The course-code regex: completeness of `searchPat` -/

theorem matchDigits5_complete {D : List Char} (h5 : D.length = 5)
    (hd : D.all isPyDigit = true) (rest : List Char) :
    matchDigits5 (D ++ rest) = some D := by
  rcases D with _ | ⟨d1, D⟩
  · simp at h5
  rcases D with _ | ⟨d2, D⟩
  · simp at h5
  rcases D with _ | ⟨d3, D⟩
  · simp at h5
  rcases D with _ | ⟨d4, D⟩
  · simp at h5
  rcases D with _ | ⟨d5, D⟩
  · simp at h5
  have hD : D = [] := by
    simp only [List.length_cons] at h5
    exact List.length_eq_zero.mp (by omega)
  subst hD
  simp only [List.all_cons, List.all_nil, Bool.and_eq_true] at hd
  obtain ⟨h1, h2, h3, h4, h5', -⟩ := hd
  simp [matchDigits5, h1, h2, h3, h4, h5']

theorem wsThenDigits_complete :
    ∀ {w : List Char}, w ≠ [] → w.all isPySpace = true →
      ∀ {D : List Char} (rest : List Char), D.length = 5 → D.all isPyDigit = true →
        wsThenDigits (w ++ (D ++ rest)) = some D := by
  intro w
  induction w with
  | nil => intro h; exact absurd rfl h
  | cons c w ih =>
    intro _ hall D rest h5 hd
    simp only [List.all_cons, Bool.and_eq_true] at hall
    simp only [List.cons_append]
    unfold wsThenDigits
    rw [if_pos hall.1]
    cases w with
    | nil =>
      simp only [List.nil_append]
      have hnone : wsThenDigits (D ++ rest) = none := by
        rcases D with _ | ⟨d1, D'⟩
        · simp at h5
        have hd1 : isPyDigit d1 = true := by
          simp only [List.all_cons, Bool.and_eq_true] at hd
          exact hd.1
        simp only [List.cons_append]
        unfold wsThenDigits
        rw [if_neg (by simp [pydigit_not_space hd1])]
      rw [hnone]
      exact matchDigits5_complete h5 hd rest
    | cons c2 w2 =>
      have hres := ih (by simp) hall.2 rest h5 hd
      rw [hres]

theorem tryUppers_complete {L w D : List Char} (rest : List Char)
    (hup : L.all isUpperAZ = true) (hw : w ≠ []) (hwsp : w.all isPySpace = true)
    (h5 : D.length = 5) (hd : D.all isPyDigit = true) :
    tryUppers (L ++ (w ++ (D ++ rest))) L.length = some (L, D) := by
  unfold tryUppers
  rw [List.take_left, List.drop_left]
  rw [wsThenDigits_complete hw hwsp rest h5 hd]
  simp [hup]

theorem tryUppers_none_of_bad {cs : List Char} {k : Nat}
    (h : ∃ x ∈ cs.take k, isUpperAZ x = false) : tryUppers cs k = none := by
  obtain ⟨x, hx, hxf⟩ := h
  unfold tryUppers
  have hall : (cs.take k).all isUpperAZ = false := by
    rw [← Bool.not_eq_true, List.all_eq_true]
    intro hallc
    exact absurd (hallc x hx) (by simp [hxf])
  simp [hall]

theorem mem_take_append_of_lt {α : Type} (L t : List α) (x : α) {n : Nat}
    (h : L.length < n) : x ∈ (L ++ x :: t).take n := by
  have hn : n = L.length + (n - L.length) := by omega
  rw [hn, List.take_append]
  rcases hm : n - L.length with _ | m
  · omega
  · simp

theorem matchAt_complete {L w D : List Char} (rest : List Char)
    (h2 : 2 ≤ L.length) (h4 : L.length ≤ 4) (hup : L.all isUpperAZ = true)
    (hw : w ≠ []) (hwsp : w.all isPySpace = true)
    (h5 : D.length = 5) (hd : D.all isPyDigit = true) :
    (matchAt (L ++ (w ++ (D ++ rest)))).isSome = true := by
  obtain ⟨w0, w', rfl⟩ : ∃ w0 w', w = w0 :: w' := by
    cases w with
    | nil => exact absurd rfl hw
    | cons a b => exact ⟨a, b, rfl⟩
  have hw0 : isPySpace w0 = true := by
    simp only [List.all_cons, Bool.and_eq_true] at hwsp
    exact hwsp.1
  have hw0up : isUpperAZ w0 = false := space_not_upper hw0
  have hshape : L ++ ((w0 :: w') ++ (D ++ rest)) = L ++ w0 :: (w' ++ (D ++ rest)) := by
    simp
  have hmem : ∀ n, L.length < n →
      w0 ∈ (L ++ ((w0 :: w') ++ (D ++ rest))).take n := by
    intro n hn
    rw [hshape]
    exact mem_take_append_of_lt L (w' ++ (D ++ rest)) w0 hn
  have hsome := tryUppers_complete (L := L) (w := w0 :: w') rest hup hw hwsp h5 hd
  unfold matchAt
  have hcase : L.length = 2 ∨ L.length = 3 ∨ L.length = 4 := by omega
  rcases hcase with hL | hL | hL
  · rw [tryUppers_none_of_bad ⟨w0, hmem 4 (by omega), hw0up⟩,
      tryUppers_none_of_bad ⟨w0, hmem 3 (by omega), hw0up⟩]
    rw [← hL, hsome]
    rfl
  · rw [tryUppers_none_of_bad ⟨w0, hmem 4 (by omega), hw0up⟩]
    rw [← hL, hsome]
    rfl
  · rw [← hL, hsome]
    rfl

theorem searchPat_suffix :
    ∀ (pre : List Char) {suffix : List Char},
      (matchAt suffix).isSome = true → (searchPat (pre ++ suffix)).isSome = true := by
  intro pre
  induction pre with
  | nil =>
    intro suffix h
    simp only [List.nil_append]
    cases suffix with
    | nil => rw [show matchAt [] = none from by decide] at h; simp at h
    | cons c tl =>
      unfold searchPat
      split
      · simp
      · rename_i hm
        rw [hm] at h
        simp at h
  | cons p pre ih =>
    intro suffix h
    simp only [List.cons_append]
    unfold searchPat
    split
    · simp
    · exact ih h

theorem searchPat_complete {cs : List Char} (h : hasCodePattern cs) :
    (searchPat cs).isSome = true := by
  obtain ⟨pre, L, w, D, rest, heq, h2, h4, hup, hw, hwsp, h5, hd⟩ := h
  rw [heq]
  simp only [List.append_assoc]
  exact searchPat_suffix pre (matchAt_complete rest h2 h4 hup hw hwsp h5 hd)

theorem no_pattern_of_searchPat_none {cs : List Char} (h : searchPat cs = none) :
    ¬ hasCodePattern cs := fun hp => by
  have hs := searchPat_complete hp
  rw [h] at hs
  simp at hs

/-! ## The `" - "` fallback of `_extract_course_code` -/

theorem takeBefore_decomp {sep : List Char} :
    ∀ {cs : List Char}, containsSub sep cs = true →
      ∃ suffix, cs = takeBefore sep cs ++ sep ++ suffix := by
  intro cs
  induction cs with
  | nil =>
    intro h
    unfold containsSub at h
    have hsep : sep = [] := by
      have := List.isPrefixOf_iff_prefix.mp h
      simpa using this
    exact ⟨[], by simp [takeBefore, hsep]⟩
  | cons c rest ih =>
    intro h
    unfold takeBefore
    split
    · rename_i hp
      obtain ⟨t, ht⟩ := List.isPrefixOf_iff_prefix.mp hp
      exact ⟨t, by simp [← ht]⟩
    · rename_i hp
      unfold containsSub at h
      rw [Bool.or_eq_true] at h
      have h' : containsSub sep rest = true := by
        rcases h with h | h
        · exact absurd h hp
        · exact h
      obtain ⟨t, ht⟩ := ih h'
      refine ⟨t, ?_⟩
      conv_lhs => rw [ht]
      simp

theorem takeBefore_first {sep : List Char} :
    ∀ {cs : List Char} {i : Nat}, i < (takeBefore sep cs).length →
      sep.isPrefixOf (cs.drop i) = false := by
  intro cs
  induction cs with
  | nil => intro i h; simp [takeBefore] at h
  | cons c rest ih =>
    intro i h
    unfold takeBefore at h
    split at h
    · simp at h
    · rename_i hp
      cases i with
      | zero =>
        simp only [List.drop_zero]
        cases hb : sep.isPrefixOf (c :: rest)
        · rfl
        · exact absurd hb hp
      | succ j =>
        simp only [List.drop_succ_cons]
        refine ih ?_
        simp only [List.length_cons] at h
        omega

/-! ## JSON round trip: whitespace and digit facts -/

theorem skipWs_ws_append : ∀ {w : List Char}, w.all isJsonWs = true →
    ∀ t, skipWs (w ++ t) = skipWs t := by
  intro w
  induction w with
  | nil => intro _ t; rfl
  | cons c w' ih =>
    intro hall t
    simp only [List.all_cons, Bool.and_eq_true] at hall
    simp only [List.cons_append, skipWs, List.dropWhile_cons, hall.1, if_true]
    exact ih hall.2 t

theorem skipWs_nonws {c : Char} (h : isJsonWs c = false) (t : List Char) :
    skipWs (c :: t) = c :: t := by
  simp [skipWs, List.dropWhile_cons, h]

theorem padC_ws (n : Nat) : (padC n).all isJsonWs = true := by
  rw [List.all_eq_true]
  intro x hx
  simp only [padC] at hx
  have hx' := List.eq_of_mem_replicate hx
  subst hx'
  decide

theorem digitC_facts : ∀ d, d < 10 →
    isDigit09 (digitC d) = true ∧ (digitC d).toNat = 48 + d := by decide

theorem hexVal_hexC : ∀ x, x < 16 → hexVal (hexC x) = x := by decide

theorem digit_not_jsonws {c : Char} (h : isDigit09 c = true) : isJsonWs c = false := by
  simp only [isDigit09, Bool.and_eq_true, decide_eq_true_eq] at h
  simp only [isJsonWs, Bool.or_eq_false_iff, decide_eq_false_iff_not]
  omega

theorem digit_ne_special {c : Char} (h : isDigit09 c = true) :
    c ≠ '\x7b' ∧ c ≠ '[' ∧ c ≠ '\x22' ∧ c ≠ '-' ∧ c ≠ ']' ∧ c ≠ '\x7d' := by
  simp only [isDigit09, Bool.and_eq_true, decide_eq_true_eq] at h
  refine ⟨?_, ?_, ?_, ?_, ?_, ?_⟩ <;>
    (intro heq; subst heq; exact absurd h (by decide))

theorem natChars_cons : ∀ n : Nat, ∃ d t, d < 10 ∧ natChars n = digitC d :: t := by
  intro n
  induction n using Nat.strong_induction_on with
  | _ n ih =>
    rw [natChars]
    split
    · rename_i h
      exact ⟨n, [], h, rfl⟩
    · rename_i h
      obtain ⟨d, t, hd, ht⟩ := ih (n / 10) (Nat.div_lt_self (by omega) (by omega))
      exact ⟨d, t ++ [digitC (n % 10)], hd, by rw [ht]; rfl⟩

theorem natChars_ne_nil (n : Nat) : natChars n ≠ [] := by
  obtain ⟨d, t, -, ht⟩ := natChars_cons n
  simp [ht]

theorem natChars_all : ∀ n : Nat, (natChars n).all isDigit09 = true := by
  intro n
  induction n using Nat.strong_induction_on with
  | _ n ih =>
    rw [natChars]
    split
    · rename_i h
      simp [List.all_cons, (digitC_facts n h).1]
    · rename_i h
      rw [List.all_append]
      have h1 := ih (n / 10) (Nat.div_lt_self (by omega) (by omega))
      have h2 := (digitC_facts (n % 10) (Nat.mod_lt n (by omega))).1
      simp [h1, List.all_cons, h2]

theorem digitsVal_natChars : ∀ n : Nat, digitsVal (natChars n) = n := by
  intro n
  induction n using Nat.strong_induction_on with
  | _ n ih =>
    rw [natChars]
    split
    · rename_i h
      have hc := (digitC_facts n h).2
      simp only [digitsVal, List.foldl]
      omega
    · rename_i h
      have hdiv := ih (n / 10) (Nat.div_lt_self (by omega) (by omega))
      have hmod := (digitC_facts (n % 10) (Nat.mod_lt n (by omega))).2
      simp only [digitsVal, List.foldl_append, List.foldl] at hdiv ⊢
      rw [hdiv]
      omega

theorem takeWhile_digits_append : ∀ {ds : List Char}, ds.all isDigit09 = true →
    ∀ {t : List Char}, headIsDigit t = false →
      (ds ++ t).takeWhile isDigit09 = ds ∧ (ds ++ t).dropWhile isDigit09 = t := by
  intro ds
  induction ds with
  | nil =>
    intro _ t ht
    cases t with
    | nil => exact ⟨rfl, rfl⟩
    | cons c t' =>
      have hc : isDigit09 c = false := ht
      constructor <;> simp [List.takeWhile_cons, List.dropWhile_cons, hc]
  | cons d ds' ih =>
    intro hall t ht
    simp only [List.all_cons, Bool.and_eq_true] at hall
    obtain ⟨h1, h2⟩ := ih hall.2 ht
    constructor <;>
      simp [List.takeWhile_cons, List.dropWhile_cons, hall.1, h1, h2]

theorem parseNatPart_natChars (n : Nat) {t : List Char} (ht : headIsDigit t = false) :
    parseNatPart (natChars n ++ t) = some (n, t) := by
  obtain ⟨htake, hdrop⟩ := takeWhile_digits_append (natChars_all n) ht
  unfold parseNatPart
  rw [htake, hdrop, if_neg (by simp [natChars_ne_nil n]), digitsVal_natChars]

/-! ## JSON round trip: the shape of serialized values -/

theorem serVal_shape (ind : Nat) (v : PyObj) :
    ∃ c t0, serVal ind v = c :: t0 ∧ isJsonWs c = false ∧ c ≠ ']' ∧ c ≠ '\x7d' := by
  cases v with
  | pynone =>
    exact ⟨'n', [ 'u', 'l', 'l' ], by simp [serVal], by decide, by decide, by decide⟩
  | pybool b =>
    cases b with
    | true =>
      exact ⟨'t', [ 'r', 'u', 'e' ], by simp [serVal], by decide, by decide, by decide⟩
    | false =>
      exact ⟨'f', [ 'a', 'l', 's', 'e' ], by simp [serVal], by decide, by decide, by decide⟩
  | pyint n =>
    by_cases hn : n < 0
    · exact ⟨'-', natChars n.natAbs, by simp [serVal, serNum, hn], by decide, by decide,
        by decide⟩
    · obtain ⟨d, t, hd, ht⟩ := natChars_cons n.toNat
      have hdig := (digitC_facts d hd).1
      have hne := digit_ne_special hdig
      exact ⟨digitC d, t, by simp [serVal, serNum, hn, ht],
        digit_not_jsonws hdig, hne.2.2.2.2.1, hne.2.2.2.2.2⟩
  | pystr s =>
    exact ⟨'\x22', escList s.data ++ ['\x22'], by simp [serVal, serStr],
      by decide, by decide, by decide⟩
  | pylist items =>
    cases items with
    | nil => exact ⟨'[', [ ']' ], by simp [serVal], by decide, by decide, by decide⟩
    | cons x xs =>
      exact ⟨'[', '\n' :: (serItems (ind + 2) x xs ++ '\n' :: (padC ind ++ [ ']' ])),
        by simp [serVal], by decide, by decide, by decide⟩
  | pydict entries =>
    rcases entries with _ | ⟨⟨k, v⟩, kvs⟩
    · exact ⟨'\x7b', [ '\x7d' ], by simp [serVal], by decide, by decide, by decide⟩
    · exact ⟨'\x7b', '\n' :: (serFields (ind + 2) k v kvs ++ '\n' :: (padC ind ++ [ '\x7d' ])),
        by simp [serVal], by decide, by decide, by decide⟩

theorem skipWs_to_serVal {w : List Char} (hw : w.all isJsonWs = true)
    (ind : Nat) (v : PyObj) (t : List Char) :
    skipWs (w ++ (serVal ind v ++ t)) = serVal ind v ++ t := by
  rw [skipWs_ws_append hw]
  obtain ⟨c, t0, hc, hnws, -, -⟩ := serVal_shape ind v
  rw [hc, List.cons_append, skipWs_nonws hnws]

/-! ## JSON round trip: string literals -/

theorem parseStrBody_escList : ∀ (l more : List Char),
    parseStrBody (escList l ++ ('\x22' :: more)) = some (l, more) := by
  intro l
  induction l with
  | nil =>
    intro more
    simp only [escList, List.nil_append]
    unfold parseStrBody
    rw [if_pos rfl]
  | cons c l' ih =>
    intro more
    simp only [escList, List.append_assoc]
    by_cases h1 : c = '\x22'
    · subst h1
      rw [show escChar '\x22' = ['\x5c', '\x22'] from by decide]
      simp only [List.cons_append, List.nil_append]
      unfold parseStrBody
      rw [if_neg (by decide), if_pos rfl]
      simp only []
      rw [if_neg (by decide), show unescChar '\x22' = some '\x22' from by decide, ih more]
    · by_cases h2 : c = '\x5c'
      · subst h2
        rw [show escChar '\x5c' = ['\x5c', '\x5c'] from by decide]
        simp only [List.cons_append, List.nil_append]
        unfold parseStrBody
        rw [if_neg (by decide), if_pos rfl]
        simp only []
        rw [if_neg (by decide), show unescChar '\x5c' = some '\x5c' from by decide, ih more]
      · by_cases h3 : c = '\n'
        · subst h3
          rw [show escChar '\n' = ['\x5c', 'n'] from by decide]
          simp only [List.cons_append, List.nil_append]
          unfold parseStrBody
          rw [if_neg (by decide), if_pos rfl]
          simp only []
          rw [if_neg (by decide), show unescChar 'n' = some '\n' from by decide, ih more]
        · by_cases h4 : c = '\x0d'
          · subst h4
            rw [show escChar '\x0d' = ['\x5c', 'r'] from by decide]
            simp only [List.cons_append, List.nil_append]
            unfold parseStrBody
            rw [if_neg (by decide), if_pos rfl]
            simp only []
            rw [if_neg (by decide), show unescChar 'r' = some '\x0d' from by decide, ih more]
          · by_cases h5 : c = '\t'
            · subst h5
              rw [show escChar '\t' = ['\x5c', 't'] from by decide]
              simp only [List.cons_append, List.nil_append]
              unfold parseStrBody
              rw [if_neg (by decide), if_pos rfl]
              simp only []
              rw [if_neg (by decide), show unescChar 't' = some '\t' from by decide, ih more]
            · by_cases h6 : c = '\x08'
              · subst h6
                rw [show escChar '\x08' = ['\x5c', 'b'] from by decide]
                simp only [List.cons_append, List.nil_append]
                unfold parseStrBody
                rw [if_neg (by decide), if_pos rfl]
                simp only []
                rw [if_neg (by decide), show unescChar 'b' = some '\x08' from by decide, ih more]
              · by_cases h7 : c = '\x0c'
                · subst h7
                  rw [show escChar '\x0c' = ['\x5c', 'f'] from by decide]
                  simp only [List.cons_append, List.nil_append]
                  unfold parseStrBody
                  rw [if_neg (by decide), if_pos rfl]
                  simp only []
                  rw [if_neg (by decide), show unescChar 'f' = some '\x0c' from by decide, ih more]
                · by_cases h8 : c.toNat < 32
                  · rw [show escChar c =
                        ['\x5c', 'u', '0', '0', hexC (c.toNat / 16), hexC (c.toNat % 16)]
                        from by simp [escChar, h1, h2, h3, h4, h5, h6, h7, h8]]
                    simp only [List.cons_append, List.nil_append]
                    unfold parseStrBody
                    rw [if_neg (by decide), if_pos rfl]
                    simp only [if_true]
                    rw [ih more]
                    have hhex : hexVal '0' * 4096 + hexVal '0' * 256 +
                        hexVal (hexC (c.toNat / 16)) * 16 + hexVal (hexC (c.toNat % 16)) =
                        c.toNat := by
                      rw [show hexVal '0' = 0 from by decide,
                        hexVal_hexC (c.toNat / 16) (by omega),
                        hexVal_hexC (c.toNat % 16) (by omega)]
                      omega
                    rw [hhex, Char.ofNat_toNat]
                  · rw [show escChar c = [c]
                        from by simp [escChar, h1, h2, h3, h4, h5, h6, h7, h8]]
                    simp only [List.cons_append, List.nil_append]
                    unfold parseStrBody
                    rw [if_neg h1, if_neg h2, ih more]

/-! ## JSON round trip: keyword literals and serializer shapes -/

theorem isPrefixOf_append_self (p t : List Char) : p.isPrefixOf (p ++ t) = true := by
  induction p with
  | nil => simp [List.isPrefixOf]
  | cons a p ih => simp [List.isPrefixOf, ih]

theorem isPrefixOf_cons_ne {a b : Char} (p l : List Char) (h : ¬ a = b) :
    (a :: p).isPrefixOf (b :: l) = false := by
  simp [List.isPrefixOf, h]

theorem serItems_shape_nil (ind : Nat) (x : PyObj) (rest : List Char) :
    serItems ind x [] ++ rest = padC ind ++ (serVal ind x ++ rest) := by
  simp [serItems, List.append_assoc]

theorem serItems_shape_cons (ind : Nat) (x y : PyObj) (ys : List PyObj) (rest : List Char) :
    serItems ind x (y :: ys) ++ rest =
      padC ind ++ (serVal ind x ++ (',' :: ('\n' :: (serItems ind y ys ++ rest)))) := by
  simp [serItems, List.append_assoc]

theorem serFields_shape_nil (ind : Nat) (k : String) (v : PyObj) (rest : List Char) :
    serFields ind k v [] ++ rest =
      padC ind ++ ('\x22' :: (escList k.data ++
        ('\x22' :: (':' :: (' ' :: (serVal ind v ++ rest)))))) := by
  simp [serFields, serStr, List.append_assoc]

theorem serFields_shape_cons (ind : Nat) (k : String) (v : PyObj) (k2 : String)
    (v2 : PyObj) (kvs : List (String × PyObj)) (rest : List Char) :
    serFields ind k v ((k2, v2) :: kvs) ++ rest =
      padC ind ++ ('\x22' :: (escList k.data ++
        ('\x22' :: (':' :: (' ' :: (serVal ind v ++
          (',' :: ('\n' :: (serFields ind k2 v2 kvs ++ rest))))))))) := by
  simp [serFields, serStr, List.append_assoc]

/-! ## JSON round trip: fuel bounds -/

theorem jsize_pos (v : PyObj) : 1 ≤ jsize v := by
  cases v <;> simp [jsize]

theorem jsizeL_pos (xs : List PyObj) : 1 ≤ jsizeL xs := by
  cases xs with
  | nil => simp [jsizeL]
  | cons x xs => simp only [jsizeL]; omega

theorem jsizeF_pos (kvs : List (String × PyObj)) : 1 ≤ jsizeF kvs := by
  rcases kvs with _ | ⟨⟨k, v⟩, kvs⟩
  · simp [jsizeF]
  · simp only [jsizeF]; omega

mutual

theorem jsize_le_serVal (ind : Nat) (v : PyObj) : jsize v ≤ (serVal ind v).length := by
  cases v with
  | pynone => simp [jsize, serVal]
  | pybool b => cases b <;> simp [jsize, serVal]
  | pyint n =>
    simp only [jsize, serVal, serNum]
    split
    · simp
    · have := List.length_pos.mpr (natChars_ne_nil n.toNat)
      omega
  | pystr s =>
    simp only [jsize, serVal, serStr, List.length_cons, List.length_append]
    omega
  | pylist items =>
    cases items with
    | nil => simp [jsize, jsizeL, serVal]
    | cons x xs =>
      have hi := jsizeL_le_serItems (ind + 2) x xs
      simp only [jsize, jsizeL, serVal, List.length_cons, List.length_append] at hi ⊢
      omega
  | pydict entries =>
    rcases entries with _ | ⟨⟨k, v⟩, kvs⟩
    · simp [jsize, jsizeF, serVal]
    · have hi := jsizeF_le_serFields (ind + 2) k v kvs
      simp only [jsize, jsizeF, serVal, List.length_cons, List.length_append] at hi ⊢
      omega
termination_by sizeOf v

theorem jsizeL_le_serItems (ind : Nat) (x : PyObj) (xs : List PyObj) :
    jsize x + jsizeL xs ≤ (serItems ind x xs).length + 2 := by
  cases xs with
  | nil =>
    have hx := jsize_le_serVal ind x
    simp only [jsizeL, serItems, List.length_append]
    omega
  | cons y ys =>
    have hx := jsize_le_serVal ind x
    have hi := jsizeL_le_serItems ind y ys
    simp only [jsizeL, serItems, List.length_append, List.length_cons] at hi ⊢
    omega
termination_by sizeOf x + sizeOf xs

theorem jsizeF_le_serFields (ind : Nat) (k : String) (v : PyObj)
    (kvs : List (String × PyObj)) :
    jsize v + jsizeF kvs ≤ (serFields ind k v kvs).length + 2 := by
  cases kvs with
  | nil =>
    have hv := jsize_le_serVal ind v
    simp only [jsizeF, serFields, List.length_append, List.length_cons]
    omega
  | cons kv kvs' =>
    obtain ⟨k2, v2⟩ := kv
    have hv := jsize_le_serVal ind v
    have hi := jsizeF_le_serFields ind k2 v2 kvs'
    simp only [jsizeF, serFields, List.length_append, List.length_cons] at hi ⊢
    omega
termination_by sizeOf v + sizeOf kvs

end

/-! ## JSON round trip: locating the first value after whitespace -/

theorem nl_pad_ws (n : Nat) : ('\n' :: padC n).all isJsonWs = true := by
  simp only [List.all_cons, padC_ws, Bool.and_true]
  decide

theorem skipWs_nl_serItems (ind : Nat) (x : PyObj) (xs : List PyObj) (r : List Char) :
    ∃ s, skipWs ('\n' :: (serItems ind x xs ++ r)) = serVal ind x ++ s := by
  cases xs with
  | nil =>
    refine ⟨r, ?_⟩
    rw [serItems_shape_nil]
    have h1 : ('\n' :: (padC ind ++ (serVal ind x ++ r))) =
        ('\n' :: padC ind) ++ (serVal ind x ++ r) := by simp
    rw [h1, skipWs_to_serVal (nl_pad_ws ind)]
  | cons y ys =>
    refine ⟨',' :: ('\n' :: (serItems ind y ys ++ r)), ?_⟩
    rw [serItems_shape_cons]
    have h1 : ('\n' :: (padC ind ++ (serVal ind x ++ (',' :: ('\n' :: (serItems ind y ys ++ r)))))) =
        ('\n' :: padC ind) ++ (serVal ind x ++ (',' :: ('\n' :: (serItems ind y ys ++ r)))) := by
      simp
    rw [h1, skipWs_to_serVal (nl_pad_ws ind)]

theorem skipWs_nl_serFields (ind : Nat) (k : String) (v : PyObj)
    (kvs : List (String × PyObj)) (r : List Char) :
    ∃ s, skipWs ('\n' :: (serFields ind k v kvs ++ r)) = '\x22' :: s := by
  cases kvs with
  | nil =>
    refine ⟨escList k.data ++ ('\x22' :: (':' :: (' ' :: (serVal ind v ++ r)))), ?_⟩
    rw [serFields_shape_nil]
    have h1 : ('\n' :: (padC ind ++ ('\x22' :: (escList k.data ++
        ('\x22' :: (':' :: (' ' :: (serVal ind v ++ r)))))))) =
        ('\n' :: padC ind) ++ ('\x22' :: (escList k.data ++
        ('\x22' :: (':' :: (' ' :: (serVal ind v ++ r)))))) := by simp
    rw [h1, skipWs_ws_append (nl_pad_ws ind), skipWs_nonws (by decide)]
  | cons kv kvs' =>
    obtain ⟨k2, v2⟩ := kv
    refine ⟨escList k.data ++ ('\x22' :: (':' :: (' ' :: (serVal ind v ++
      (',' :: ('\n' :: (serFields ind k2 v2 kvs' ++ r))))))), ?_⟩
    rw [serFields_shape_cons]
    have h1 : ('\n' :: (padC ind ++ ('\x22' :: (escList k.data ++
        ('\x22' :: (':' :: (' ' :: (serVal ind v ++
          (',' :: ('\n' :: (serFields ind k2 v2 kvs' ++ r))))))))))) =
        ('\n' :: padC ind) ++ ('\x22' :: (escList k.data ++
        ('\x22' :: (':' :: (' ' :: (serVal ind v ++
          (',' :: ('\n' :: (serFields ind k2 v2 kvs' ++ r))))))))) := by simp
    rw [h1, skipWs_ws_append (nl_pad_ws ind), skipWs_nonws (by decide)]

theorem litNull_head_ne {c : Char} (h : ¬ c = 'n') (l : List Char) :
    litNull.isPrefixOf (c :: l) = false := by
  rw [show litNull = 'n' :: [ 'u', 'l', 'l' ] from rfl]
  exact isPrefixOf_cons_ne _ _ (fun he => h he.symm)

theorem litTrue_head_ne {c : Char} (h : ¬ c = 't') (l : List Char) :
    litTrue.isPrefixOf (c :: l) = false := by
  rw [show litTrue = 't' :: [ 'r', 'u', 'e' ] from rfl]
  exact isPrefixOf_cons_ne _ _ (fun he => h he.symm)

theorem headIsDigit_cons (c : Char) (l : List Char) : headIsDigit (c :: l) = isDigit09 c :=
  rfl

/-! ## JSON round trip: the parser inverts the serializer -/

theorem parse_ser : ∀ f : Nat,
    (∀ v ind w t, jsize v ≤ f → w.all isJsonWs = true → headIsDigit t = false →
      parseVal f (w ++ (serVal ind v ++ t)) = some (v, t)) ∧
    (∀ x xs ind w ind2 t, jsize x + jsizeL xs ≤ f → w.all isJsonWs = true →
      parseItems f (w ++ (serItems ind x xs ++ ('\n' :: (padC ind2 ++ (']' :: t))))) =
        some (x :: xs, t)) ∧
    (∀ k v kvs ind w ind2 t, jsize v + jsizeF kvs ≤ f → w.all isJsonWs = true →
      parseFields f (w ++ (serFields ind k v kvs ++ ('\n' :: (padC ind2 ++ ('\x7d' :: t))))) =
        some ((k, v) :: kvs, t)) := by
  intro f
  induction f with
  | zero =>
    refine ⟨?_, ?_, ?_⟩
    · intro v ind w t hf _ _
      have := jsize_pos v
      omega
    · intro x xs ind w ind2 t hf _
      have := jsize_pos x
      have := jsizeL_pos xs
      omega
    · intro k v kvs ind w ind2 t hf _
      have := jsize_pos v
      have := jsizeF_pos kvs
      omega
  | succ f ih =>
    obtain ⟨ihV, ihI, ihF⟩ := ih
    refine ⟨?_, ?_, ?_⟩
    · -- one value
      intro v ind w t hf hw ht
      simp only [parseVal]
      rw [skipWs_to_serVal hw]
      cases v with
      | pynone =>
        simp only [serVal, List.cons_append, List.nil_append]
        unfold parseValCore
        rw [if_neg (by decide), if_neg (by decide), if_neg (by decide), if_neg (by decide),
          if_neg (by decide),
          if_pos (show litNull.isPrefixOf ('n' :: ('u' :: ('l' :: ('l' :: t)))) = true from
            isPrefixOf_append_self litNull t)]
        rfl
      | pybool b =>
        cases b with
        | true =>
          simp only [serVal, List.cons_append, List.nil_append]
          unfold parseValCore
          rw [if_neg (by decide), if_neg (by decide), if_neg (by decide), if_neg (by decide),
            if_neg (by decide),
            if_neg (by rw [litNull_head_ne (by decide)]; decide),
            if_pos (show litTrue.isPrefixOf ('t' :: ('r' :: ('u' :: ('e' :: t)))) = true from
              isPrefixOf_append_self litTrue t)]
          rfl
        | false =>
          simp only [serVal, List.cons_append, List.nil_append]
          unfold parseValCore
          rw [if_neg (by decide), if_neg (by decide), if_neg (by decide), if_neg (by decide),
            if_neg (by decide),
            if_neg (by rw [litNull_head_ne (by decide)]; decide),
            if_neg (by rw [litTrue_head_ne (by decide)]; decide),
            if_pos (show litFalse.isPrefixOf ('f' :: ('a' :: ('l' :: ('s' :: ('e' :: t))))) = true
              from isPrefixOf_append_self litFalse t)]
          rfl
      | pyint n =>
        by_cases hn : n < 0
        · simp only [serVal, serNum]
          rw [if_pos hn]
          simp only [List.cons_append]
          unfold parseValCore
          rw [if_neg (by decide), if_neg (by decide), if_neg (by decide), if_pos rfl]
          rw [parseNatPart_natChars n.natAbs ht]
          simp only []
          have hneg : -((n.natAbs : Nat) : Int) = n := by omega
          rw [hneg]
        · obtain ⟨d, t0, hd, ht0⟩ := natChars_cons n.toNat
          have hdig := (digitC_facts d hd).1
          have hne := digit_ne_special hdig
          simp only [serVal, serNum]
          rw [if_neg hn, ht0]
          simp only [List.cons_append]
          unfold parseValCore
          rw [if_neg hne.1, if_neg hne.2.1, if_neg hne.2.2.1, if_neg hne.2.2.2.1, if_pos hdig]
          rw [← List.cons_append, ← ht0, parseNatPart_natChars n.toNat ht]
          simp only []
          rw [Int.toNat_of_nonneg (by omega)]
      | pystr s =>
        simp only [serVal, serStr, List.cons_append, List.append_assoc,
          List.singleton_append, List.nil_append]
        unfold parseValCore
        rw [if_neg (by decide), if_neg (by decide), if_pos rfl]
        rw [parseStrBody_escList s.data t]
      | pylist items =>
        cases items with
        | nil =>
          simp only [serVal, List.cons_append, List.nil_append]
          unfold parseValCore
          rw [if_neg (by decide), if_pos rfl]
          rw [skipWs_nonws (by decide)]
          simp only [if_true]
        | cons x xs =>
          have hser : serVal ind (PyObj.pylist (x :: xs)) ++ t =
              '[' :: ('\n' :: (serItems (ind + 2) x xs ++
                ('\n' :: (padC ind ++ (']' :: t))))) := by
            simp [serVal, List.append_assoc]
          rw [hser]
          unfold parseValCore
          rw [if_neg (by decide), if_pos rfl]
          obtain ⟨c0, t0, hc0, hnws, hne1, hne2⟩ := serVal_shape (ind + 2) x
          obtain ⟨s, hskip⟩ := skipWs_nl_serItems (ind + 2) x xs
            ('\n' :: (padC ind ++ (']' :: t)))
          rw [hskip, hc0, List.cons_append]
          simp only []
          rw [if_neg hne1]
          have hfuel2 : jsize x + jsizeL xs ≤ f := by
            simp only [jsize, jsizeL] at hf
            omega
          have hitems := ihI x xs (ind + 2) [ '\n' ] ind t hfuel2 (by decide)
          simp only [List.singleton_append] at hitems
          rw [hitems]
      | pydict entries =>
        rcases entries with _ | ⟨⟨k, v⟩, kvs⟩
        · simp only [serVal, List.cons_append, List.nil_append]
          unfold parseValCore
          rw [if_pos rfl]
          rw [skipWs_nonws (by decide)]
          simp only [if_true]
        · have hser : serVal ind (PyObj.pydict ((k, v) :: kvs)) ++ t =
              '\x7b' :: ('\n' :: (serFields (ind + 2) k v kvs ++
                ('\n' :: (padC ind ++ ('\x7d' :: t))))) := by
            simp [serVal, List.append_assoc]
          rw [hser]
          unfold parseValCore
          rw [if_pos rfl]
          obtain ⟨s, hskip⟩ := skipWs_nl_serFields (ind + 2) k v kvs
            ('\n' :: (padC ind ++ ('\x7d' :: t)))
          rw [hskip]
          simp only []
          have hfuel2 : jsize v + jsizeF kvs ≤ f := by
            simp only [jsize, jsizeF] at hf
            omega
          have hfields := ihF k v kvs (ind + 2) [ '\n' ] ind t hfuel2 (by decide)
          simp only [List.singleton_append] at hfields
          rw [hfields, if_neg (by decide)]
    · -- the items of an array
      intro x xs ind w ind2 t hf hw
      cases xs with
      | nil =>
        have hform : w ++ (serItems ind x [] ++ ('\n' :: (padC ind2 ++ (']' :: t)))) =
            (w ++ padC ind) ++ (serVal ind x ++ ('\n' :: (padC ind2 ++ (']' :: t)))) := by
          rw [serItems_shape_nil]
          simp
        unfold parseItems
        rw [hform]
        have hfx : jsize x ≤ f := by
          simp only [jsizeL] at hf
          omega
        rw [ihV x ind (w ++ padC ind) ('\n' :: (padC ind2 ++ (']' :: t))) hfx
          (by simp [List.all_append, hw, padC_ws]) (by rw [headIsDigit_cons]; decide)]
        simp only []
        rw [show ('\n' :: (padC ind2 ++ (']' :: t))) = ('\n' :: padC ind2) ++ (']' :: t)
            from by simp,
          skipWs_ws_append (nl_pad_ws ind2), skipWs_nonws (by decide)]
        simp only []
        rw [if_neg (by decide)]
        simp only [if_true]
      | cons y ys =>
        have hform : w ++ (serItems ind x (y :: ys) ++ ('\n' :: (padC ind2 ++ (']' :: t)))) =
            (w ++ padC ind) ++ (serVal ind x ++ (',' :: ('\n' :: (serItems ind y ys ++
              ('\n' :: (padC ind2 ++ (']' :: t))))))) := by
          rw [serItems_shape_cons]
          simp
        unfold parseItems
        rw [hform]
        have hfx : jsize x ≤ f := by
          have := jsize_pos y
          have := jsizeL_pos ys
          simp only [jsizeL] at hf
          omega
        rw [ihV x ind (w ++ padC ind) (',' :: ('\n' :: (serItems ind y ys ++
            ('\n' :: (padC ind2 ++ (']' :: t)))))) hfx
          (by simp [List.all_append, hw, padC_ws]) (by rw [headIsDigit_cons]; decide)]
        simp only []
        rw [skipWs_nonws (by decide)]
        simp only [if_true]
        have hfrec : jsize y + jsizeL ys ≤ f := by
          have := jsize_pos x
          simp only [jsizeL] at hf
          omega
        have hrec := ihI y ys ind [ '\n' ] ind2 t hfrec (by decide)
        simp only [List.singleton_append] at hrec
        rw [hrec]
    · -- the entries of an object
      intro k v kvs ind w ind2 t hf hw
      cases kvs with
      | nil =>
        have hform : w ++ (serFields ind k v [] ++ ('\n' :: (padC ind2 ++ ('\x7d' :: t)))) =
            (w ++ padC ind) ++ ('\x22' :: (escList k.data ++ ('\x22' :: (':' :: (' ' ::
              (serVal ind v ++ ('\n' :: (padC ind2 ++ ('\x7d' :: t))))))))) := by
          rw [serFields_shape_nil]
          simp
        unfold parseFields
        rw [hform]
        rw [skipWs_ws_append (by simp [List.all_append, hw, padC_ws]),
          skipWs_nonws (by decide)]
        simp only [if_true]
        rw [parseStrBody_escList k.data (':' :: (' ' ::
          (serVal ind v ++ ('\n' :: (padC ind2 ++ ('\x7d' :: t))))))]
        simp only []
        rw [skipWs_nonws (by decide)]
        simp only [if_true]
        have hfv : jsize v ≤ f := by
          simp only [jsizeF] at hf
          omega
        have hv := ihV v ind [ ' ' ] ('\n' :: (padC ind2 ++ ('\x7d' :: t))) hfv
          (by decide) (by rw [headIsDigit_cons]; decide)
        simp only [List.singleton_append] at hv
        rw [hv]
        simp only []
        rw [show ('\n' :: (padC ind2 ++ ('\x7d' :: t))) = ('\n' :: padC ind2) ++ ('\x7d' :: t)
            from by simp,
          skipWs_ws_append (nl_pad_ws ind2), skipWs_nonws (by decide)]
        simp only []
        rw [if_neg (by decide)]
        simp only [if_true]
      | cons kv kvs' =>
        obtain ⟨k2, v2⟩ := kv
        have hform : w ++ (serFields ind k v ((k2, v2) :: kvs') ++
              ('\n' :: (padC ind2 ++ ('\x7d' :: t)))) =
            (w ++ padC ind) ++ ('\x22' :: (escList k.data ++ ('\x22' :: (':' :: (' ' ::
              (serVal ind v ++ (',' :: ('\n' :: (serFields ind k2 v2 kvs' ++
                ('\n' :: (padC ind2 ++ ('\x7d' :: t)))))))))))) := by
          rw [serFields_shape_cons]
          simp
        unfold parseFields
        rw [hform]
        rw [skipWs_ws_append (by simp [List.all_append, hw, padC_ws]),
          skipWs_nonws (by decide)]
        simp only [if_true]
        rw [parseStrBody_escList k.data (':' :: (' ' :: (serVal ind v ++
          (',' :: ('\n' :: (serFields ind k2 v2 kvs' ++
            ('\n' :: (padC ind2 ++ ('\x7d' :: t)))))))))]
        simp only []
        rw [skipWs_nonws (by decide)]
        simp only [if_true]
        have hfv : jsize v ≤ f := by
          have := jsize_pos v2
          have := jsizeF_pos kvs'
          simp only [jsizeF] at hf
          omega
        have hv := ihV v ind [ ' ' ] (',' :: ('\n' :: (serFields ind k2 v2 kvs' ++
          ('\n' :: (padC ind2 ++ ('\x7d' :: t)))))) hfv (by decide)
          (by rw [headIsDigit_cons]; decide)
        simp only [List.singleton_append] at hv
        rw [hv]
        simp only []
        rw [skipWs_nonws (by decide)]
        simp only [if_true]
        have hfrec : jsize v2 + jsizeF kvs' ≤ f := by
          have := jsize_pos v
          simp only [jsizeF] at hf
          omega
        have hrec := ihF k2 v2 kvs' ind [ '\n' ] ind2 t hfrec (by decide)
        simp only [List.singleton_append] at hrec
        rw [hrec]

/-- Claim C7: writing a JSON-serializable mapping with `save_data`
(`json.dump(data, f, indent=2)`) and then reading and JSON-parsing the
file yields a structure equal to the original data. -/
theorem save_data_roundtrip (data : PyObj) : parseJson (save_data data) = some data := by
  unfold parseJson save_data
  have hfuel : jsize data ≤ (String.mk (serVal 0 data)).length + 1 := by
    have h1 := jsize_le_serVal 0 data
    have h2 : (String.mk (serVal 0 data)).length = (serVal 0 data).length := rfl
    omega
  have hmain := (parse_ser ((String.mk (serVal 0 data)).length + 1)).1 data 0 [] []
    hfuel rfl rfl
  simp only [List.nil_append, List.append_nil] at hmain
  rw [show (String.mk (serVal 0 data)).data = serVal 0 data from rfl, hmain]
  rfl

/-! ## Claim theorems: the course-code extractor -/

/-- Claim C2: when the course name contains two-to-four uppercase ASCII
letters, then whitespace, then five digits, `_extract_course_code`
returns the matched letters, a single space, and the matched digits —
the output is assembled from an actual occurrence of the pattern in the
name. -/
theorem extract_course_code_pattern (name : String) (h : hasCodePattern name.data) :
    ∃ L w D pre rest,
      name.data = pre ++ L ++ w ++ D ++ rest ∧
      2 ≤ L.length ∧ L.length ≤ 4 ∧ L.all isUpperAZ = true ∧
      w ≠ [] ∧ w.all isPySpace = true ∧ D.length = 5 ∧ D.all isPyDigit = true ∧
      extract_course_code name = String.mk L ++ " " ++ String.mk D := by
  have hs := searchPat_complete h
  obtain ⟨⟨L, D⟩, hLD⟩ := Option.isSome_iff_exists.mp hs
  obtain ⟨pre, w, rest, heq, h2, h4, hup, hw, hwsp, h5, hd⟩ := searchPat_sound hLD
  refine ⟨L, w, D, pre, rest, heq, h2, h4, hup, hw, hwsp, h5, hd, ?_⟩
  unfold extract_course_code
  rw [hLD]

theorem extract_course_code_pattern_witness :
    ∃ L w D pre rest,
      ("CS 18000 - Problem Solving" : String).data = pre ++ L ++ w ++ D ++ rest ∧
      2 ≤ L.length ∧ L.length ≤ 4 ∧ L.all isUpperAZ = true ∧
      w ≠ [] ∧ w.all isPySpace = true ∧ D.length = 5 ∧ D.all isPyDigit = true ∧
      extract_course_code "CS 18000 - Problem Solving" = String.mk L ++ " " ++ String.mk D :=
  extract_course_code_pattern "CS 18000 - Problem Solving"
    ⟨[], [ 'C', 'S' ], [ ' ' ], [ '1', '8', '0', '0', '0' ],
      " - Problem Solving".data, by decide⟩

/-- Claim C3: when the course name does not contain the
letters-whitespace-five-digits pattern, `_extract_course_code` returns
the part of the name before the first occurrence of `" - "` when that
separator occurs, and the unchanged name otherwise. -/
theorem extract_course_code_fallback (name : String) (h : ¬ hasCodePattern name.data) :
    (containsSub sepDash name.data = true →
      (∃ suffix, name.data = (extract_course_code name).data ++ sepDash ++ suffix) ∧
      (∀ i, i < (extract_course_code name).data.length →
        sepDash.isPrefixOf (name.data.drop i) = false)) ∧
    (containsSub sepDash name.data = false → extract_course_code name = name) := by
  have hnone : searchPat name.data = none := by
    cases hs : searchPat name.data with
    | none => rfl
    | some r =>
      obtain ⟨L, D⟩ := r
      obtain ⟨pre, w, rest, heq, h2, h4, hup, hw, hwsp, h5, hd⟩ := searchPat_sound hs
      exact absurd ⟨pre, L, w, D, rest, heq, h2, h4, hup, hw, hwsp, h5, hd⟩ h
  constructor
  · intro hc
    have hcode : extract_course_code name = String.mk (takeBefore sepDash name.data) := by
      unfold extract_course_code
      rw [hnone, if_pos hc]
    rw [hcode]
    have hdata : (String.mk (takeBefore sepDash name.data)).data =
        takeBefore sepDash name.data := rfl
    rw [hdata]
    exact ⟨takeBefore_decomp hc, fun i hi => takeBefore_first hi⟩
  · intro hc
    unfold extract_course_code
    rw [hnone, if_neg (by simp [hc])]

theorem extract_course_code_fallback_witness :
    ((∃ suffix, ("Data Structures - Section A" : String).data =
        (extract_course_code "Data Structures - Section A").data ++ sepDash ++ suffix) ∧
      (∀ i, i < (extract_course_code "Data Structures - Section A").data.length →
        sepDash.isPrefixOf (("Data Structures - Section A" : String).data.drop i) = false)) ∧
    extract_course_code "Biology" = "Biology" :=
  ⟨(extract_course_code_fallback "Data Structures - Section A"
      (no_pattern_of_searchPat_none (by decide))).1 (by decide),
   (extract_course_code_fallback "Biology"
      (no_pattern_of_searchPat_none (by decide))).2 (by decide)⟩

/-! ## Claim theorems: extraction loops and error handling -/

/-- Claim C1: when candidate course element `k` throws during processing
and every other element processes successfully, `get_courses` returns
exactly `N - 1` records: element `k` contributes none, every other
element contributes exactly its record, in the original relative
order. -/
theorem get_courses_skips_failing (p : CoursesPage) (k : Nat) (hk : k < p.elems.length)
    (hnav : p.navOk = true)
    (hthrow : (p.elems.get ⟨k, hk⟩).raises = true)
    (hok : ∀ i : Fin p.elems.length, (i : Nat) ≠ k →
      (processCourseElem (p.elems.get i)).isSome = true) :
    (get_courses p).length = p.elems.length - 1 ∧
    (get_courses p).map some =
      (p.elems.take k ++ p.elems.drop (k + 1)).map processCourseElem := by
  have hfk : processCourseElem (p.elems.get ⟨k, hk⟩) = none := by
    unfold processCourseElem
    rw [hthrow]
    rfl
  have hrest : ∀ x ∈ p.elems.take k ++ p.elems.drop (k + 1),
      (processCourseElem x).isSome = true := by
    intro x hx
    rcases List.mem_append.mp hx with h | h
    · obtain ⟨i, hi, hxv⟩ := List.mem_iff_getElem.mp h
      have hik : i < k := by
        rw [List.length_take] at hi
        omega
      have hilen : i < p.elems.length := Nat.lt_trans hik hk
      have hx' : x = p.elems.get ⟨i, hilen⟩ := by
        rw [← hxv]
        simp [List.getElem_take]
      rw [hx']
      exact hok ⟨i, hilen⟩ (show i ≠ k by omega)
    · obtain ⟨i, hi, hxv⟩ := List.mem_iff_getElem.mp h
      have hilen : k + 1 + i < p.elems.length := by
        rw [List.length_drop] at hi
        omega
      have hx' : x = p.elems.get ⟨k + 1 + i, hilen⟩ := by
        rw [← hxv]
        simp [List.getElem_drop]
      rw [hx']
      exact hok ⟨k + 1 + i, hilen⟩ (show k + 1 + i ≠ k by omega)
  have hcourses : get_courses p =
      (p.elems.take k ++ p.elems.drop (k + 1)).filterMap processCourseElem := by
    have h0 : get_courses p = p.elems.filterMap processCourseElem := by
      simp [get_courses, hnav]
    rw [h0]
    conv_lhs => rw [list_split_at p.elems k hk]
    rw [List.filterMap_append, List.filterMap_append]
    congr 1
    simp only [List.filterMap_cons, hfk]
  have hmap := filterMap_map_some_of_isSome processCourseElem _ hrest
  rw [hcourses]
  constructor
  · have hlen := congrArg List.length hmap
    simp only [List.length_map] at hlen
    rw [hlen]
    simp [List.length_take, List.length_drop]
    omega
  · exact hmap

theorem get_courses_skips_failing_witness :
    (get_courses exPage).length = exPage.elems.length - 1 ∧
    (get_courses exPage).map some =
      (exPage.elems.take 1 ++ exPage.elems.drop 2).map processCourseElem :=
  get_courses_skips_failing exPage 1 (by decide) rfl (by decide) (by decide)

/-- Claim C4: an assignment row whose due-date sub-element is absent but
which otherwise processes successfully yields a record in
`get_assignments` whose `due_date` is the sentinel `"No due date"`. -/
theorem assignment_missing_due_date (u : String) (ap : AssignPage) (e : AssignElem)
    (a : Assignment) (hnav : ap.topRaises = false) (he : e ∈ ap.elems)
    (hdd : e.dueDate = none) (ha : processAssignElem u e = some a) :
    a ∈ get_assignments u ap ∧ a.due_date = "No due date" := by
  constructor
  · simp only [get_assignments, hnav, Bool.false_eq_true, if_false]
    exact List.mem_filterMap.mpr ⟨e, he, ha⟩
  · unfold processAssignElem at ha
    rw [hdd] at ha
    split at ha
    · exact absurd ha (by simp)
    · have hfd : fieldText none "No due date" = some "No due date" := rfl
      rw [hfd] at ha
      rcases h1 : fieldText e.title "Unknown" with _ | t1 <;> rw [h1] at ha
      · exact absurd ha (by simp)
      · rcases h3 : fieldText e.status "Unknown" with _ | s1 <;> rw [h3] at ha
        · exact absurd ha (by simp)
        · cases ha
          rfl

theorem assignment_missing_due_date_witness :
    exAssignRec ∈ get_assignments "u" exAssignPage ∧
    exAssignRec.due_date = "No due date" :=
  assignment_missing_due_date "u" exAssignPage exAssignElem exAssignRec rfl
    (by decide) rfl (by decide)

/-- Claim C5: `login` returns `False` (and raises nothing) whenever the
Duo approval element does not appear before the timeout, and returns
`True` only when it does appear in time. -/
theorem login_duo_behavior (env : LoginEnv) :
    (env.duoAppears = false → login env = Except.ok false) ∧
    (login env = Except.ok true → env.duoAppears = true) := by
  rcases env with ⟨nav, duo⟩
  cases nav <;> cases duo <;>
    simp [login, navAndSubmit, waitDuoSuccess]

theorem login_duo_behavior_witness :
    login { navRaises := false, duoAppears := false } = Except.ok false :=
  (login_duo_behavior { navRaises := false, duoAppears := false }).1 rfl

/-- Claim C6: a top-level navigation/wait/query failure makes
`get_courses` (resp. `get_assignments`) return the empty list, with no
exception propagated (both functions are total into `List`). -/
theorem top_level_failure_empty (p : CoursesPage) (ap : AssignPage) (u : String) :
    (p.navOk = false → get_courses p = []) ∧
    (ap.topRaises = true → get_assignments u ap = []) := by
  constructor
  · intro h; simp [get_courses, h]
  · intro h; simp [get_assignments, h]

theorem top_level_failure_empty_witness :
    get_courses { navOk := false, elems := [exElemA] } = [] ∧
    get_assignments "u" { topRaises := true, elems := [exAssignElem] } = [] :=
  ⟨(top_level_failure_empty { navOk := false, elems := [exElemA] }
      { topRaises := true, elems := [exAssignElem] } "u").1 rfl,
   (top_level_failure_empty { navOk := false, elems := [exElemA] }
      { topRaises := true, elems := [exAssignElem] } "u").2 rfl⟩

/-- Claim C9 as stated is false on the code: when `__enter__` raises
after launching the browser (here: `new_page()` raises), Python never
calls `__exit__`, so the browser stays open and the driver is never
stopped — a dangling browser process after the scope exits. -/
theorem scraper_enter_failure_leaks :
    (withScraper { startRaises := false, launchRaises := false, newPageRaises := true }
        false).browserLaunched = true ∧
    (withScraper { startRaises := false, launchRaises := false, newPageRaises := true }
        false).browserClosed = false ∧
    (withScraper { startRaises := false, launchRaises := false, newPageRaises := true }
        false).pwStopped = false := by
  decide

/-- Claim C9 amended: once acquisition (`__enter__`) completes, scope
exit — normal or exceptional — closes the browser and stops the driver,
the session moves Unopened → Open → Closed, and acquisition is performed
at most once per instance (one `with` scope invokes `__enter__` exactly
once); cleanup is not guaranteed when acquisition itself fails
partway. -/
theorem scraper_cleanup (b : EnterFail) (bodyRaises : Bool)
    (h : (enterRun b initState).snd = false) :
    (withScraper b bodyRaises).browserClosed = true ∧
    (withScraper b bodyRaises).pwStopped = true ∧
    phase initState = Phase.unopened ∧
    phase (enterRun b initState).fst = Phase.opened ∧
    phase (withScraper b bodyRaises) = Phase.closed ∧
    (withScraper b bodyRaises).enterCount ≤ 1 := by
  rcases b with ⟨bs, bl, bn⟩
  revert h
  cases bs <;> cases bl <;> cases bn <;> cases bodyRaises <;> decide

theorem scraper_cleanup_witness :
    (withScraper { startRaises := false, launchRaises := false, newPageRaises := false }
        true).browserClosed = true ∧
    (withScraper { startRaises := false, launchRaises := false, newPageRaises := false }
        true).pwStopped = true ∧
    phase initState = Phase.unopened ∧
    phase (enterRun { startRaises := false, launchRaises := false, newPageRaises := false }
        initState).fst = Phase.opened ∧
    phase (withScraper { startRaises := false, launchRaises := false, newPageRaises := false }
        true) = Phase.closed ∧
    (withScraper { startRaises := false, launchRaises := false, newPageRaises := false }
        true).enterCount ≤ 1 :=
  scraper_cleanup { startRaises := false, launchRaises := false, newPageRaises := false }
    true (by decide)

/-- Claim C10: an assignment row whose title sub-element exists but has
no `href` yields a record whose `url` is `None` (not a string), while a
course element with a missing `href` gets its `url` coerced to the empty
string by `url or ""`. -/
theorem record_url_none_vs_empty (u : String) (e : AssignElem) (t : SubElem)
    (a : Assignment) (ce : CourseElem) (c : Course)
    (ht : e.title = some t) (hh : t.href = none)
    (ha : processAssignElem u e = some a)
    (hch : ce.href = none) (hc : processCourseElem ce = some c) :
    a.url = none ∧ c.url = "" := by
  constructor
  · unfold processAssignElem at ha
    split at ha
    · exact absurd ha (by simp)
    · rw [ht] at ha
      split at ha
      · cases ha
        simp [ht, hh]
      · exact absurd ha (by simp)
  · unfold processCourseElem at hc
    split at hc
    · exact absurd hc (by simp)
    · split at hc
      · exact absurd hc (by simp)
      · cases hc
        simp [hch]

theorem record_url_none_vs_empty_witness :
    exAssignRec.url = none ∧ exCourseRec.url = "" :=
  record_url_none_vs_empty "u" exAssignElem { textContent := some "Homework 1", href := none }
    exAssignRec exCourseElem exCourseRec rfl rfl (by decide) rfl (by decide)

/-- Claim C8: `_extract_course_from_url` splits the URL on `/` and
returns the first segment containing `course` case-insensitively, or the
sentinel `"Unknown Course"` when no segment does; that value populates
the `course` field of every assignment record built from the URL. -/
theorem course_from_url_first_match (url : String) :
    ((∀ p ∈ splitSlash url.data, segMatchesCourse p = false) →
       extract_course_from_url url = "Unknown Course") ∧
    (∀ j (hj : j < (splitSlash url.data).length),
       segMatchesCourse ((splitSlash url.data).get ⟨j, hj⟩) = true →
       (∀ i (hi : i < j),
         segMatchesCourse ((splitSlash url.data).get ⟨i, Nat.lt_trans hi hj⟩) = false) →
       extract_course_from_url url = String.mk ((splitSlash url.data).get ⟨j, hj⟩)) ∧
    (∀ e a, processAssignElem url e = some a → a.course = extract_course_from_url url) := by
  refine ⟨?_, ?_, ?_⟩
  · intro hnone
    have : (splitSlash url.data).find? segMatchesCourse = none :=
      List.find?_eq_none.mpr fun x hx => by simp [hnone x hx]
    simp [extract_course_from_url, this]
  · intro j hj hq hprev
    have := find?_at_first_index segMatchesCourse (splitSlash url.data) j hj hq hprev
    simp [extract_course_from_url, this]
  · intro e a ha
    unfold processAssignElem at ha
    split at ha
    · exact absurd ha (by simp)
    · split at ha
      · cases ha; rfl
      · exact absurd ha (by simp)

theorem course_from_url_first_match_witness :
    extract_course_from_url "a/Courses/b" =
      String.mk ((splitSlash "a/Courses/b".data).get ⟨1, by decide⟩) :=
  (course_from_url_first_match "a/Courses/b").2.1 1 (by decide) (by decide) (by decide)

end Brightspace
